import Mathlib

/-!
Shallow embedding of the audio pacing and silence-injection core of the
mediapp repository, together with theorems checking the specification's
claims against it.

Times are modelled as exact rationals (ℚ), sample counts as naturals,
and floating-point channel data as rational sample values.  JavaScript
`Math.floor` / `Math.ceil` become `Int.floor` / `Int.ceil` on ℚ, and
typed-array writes become list surgery (`writeAt`).  Fallible decoding
(the Web Audio `decodeAudioData` call) is passed in as an
`Option AudioBuffer`: `none` is a decode failure.  A function that lets
a decode failure escape as a thrown exception is modelled as returning
`none`.
-/

namespace Mediapp

/-! ## Pacing engine (src/src/services/pacingEngine.ts) -/

/-- Character-based speech rate (characters per second, excluding whitespace). -/
def CHARS_PER_SECOND : ℚ := 12

/-- Target words per minute for LLM prompts (sparse profile). -/
def TARGET_WORDS_PER_MINUTE : ℚ := 28

/-- Safety buffer multiplier for silence. -/
def SILENCE_SAFETY_BUFFER : ℚ := 11 / 10

/-- Maximum break duration per tag (ElevenLabs limit). -/
def MAX_BREAK_SECONDS : ℚ := 3

/-- Minimum break duration (below this is imperceptible). -/
def MIN_BREAK_SECONDS : ℚ := 1 / 10

/-- Weight for comma pauses. -/
def WEIGHT_COMMA : ℚ := 1

/-- Weight for sentence-ending punctuation. -/
def WEIGHT_SENTENCE : ℚ := 3

/-- Weight for paragraph breaks. -/
def WEIGHT_PARAGRAPH : ℚ := 5

/-- The type of punctuation that ends a speech atom. -/
inductive PunctuationType where
  | comma
  | sentenceEnd
  | paragraph
  | none
deriving DecidableEq

/-- A single "atom" of speech: text followed by punctuation. -/
structure SpeechAtom where
  text : String
  punctuation : PunctuationType
  punctuationChar : String
  weight : ℚ
  wordCount : ℕ
  charCount : ℕ

/-- Configuration for the pacing engine. -/
structure PacingConfig where
  charsPerSecond : ℚ
  silenceSafetyBuffer : ℚ
  maxBreakSeconds : ℚ
  minBreakSeconds : ℚ
  weightComma : ℚ
  weightSentence : ℚ
  weightParagraph : ℚ

/-- The default pacing configuration (`DEFAULT_CONFIG`). -/
def DEFAULT_CONFIG : PacingConfig where
  charsPerSecond := CHARS_PER_SECOND
  silenceSafetyBuffer := SILENCE_SAFETY_BUFFER
  maxBreakSeconds := MAX_BREAK_SECONDS
  minBreakSeconds := MIN_BREAK_SECONDS
  weightComma := WEIGHT_COMMA
  weightSentence := WEIGHT_SENTENCE
  weightParagraph := WEIGHT_PARAGRAPH

/-- Speech atom with its calculated silence duration. -/
structure SpeechAtomWithSilence extends SpeechAtom where
  silenceAfter : ℚ

/-- Calculate the target word count for an LLM prompt:
`Math.round(minutes * TARGET_WORDS_PER_MINUTE)` with
`minutes = targetDurationSeconds / 60.0`. -/
def calculateTargetWordCount (targetDurationSeconds : ℚ) : ℤ :=
  let minutes := targetDurationSeconds / 60
  round (minutes * TARGET_WORDS_PER_MINUTE)

/-- Distribute a silence budget across atoms based on their weights
(`distributeSilence` in pacingEngine.ts).  The last atom never receives
silence; `timePerUnit` guards its denominator. -/
def distributeSilence (atoms : List SpeechAtom) (silenceBudget : ℚ)
    (config : PacingConfig) : List SpeechAtomWithSilence :=
  let totalWeight : ℚ :=
    if 1 < atoms.length then ((atoms.dropLast.map (·.weight)).sum) else 0
  let timePerUnit : ℚ := if 0 < totalWeight then silenceBudget / totalWeight else 0
  atoms.mapIdx (fun i atom =>
    let isLast := i = atoms.length - 1
    let silenceAfter : ℚ :=
      if ¬isLast ∧ 0 < atom.weight ∧ 0 < timePerUnit then
        let s := atom.weight * timePerUnit
        if s < config.minBreakSeconds then 0 else s
      else 0
    { atom with silenceAfter := silenceAfter })

/-- The sequence of break durations emitted by `formatBreakTags`
(pacingEngine.ts): repeatedly emit `min remaining maxBreakSeconds`
while `remaining > minBreakSeconds`.  We model the emitted tag
durations; the rendered string additionally prints each duration with
`toFixed(1)`.  The guard's extra conjuncts `0 ≤ minB` and `0 < maxB`
are the precondition without which the source's `while` loop would not
terminate; the default configuration satisfies both. -/
def formatBreakTags (minB maxB : ℚ) (remaining : ℚ) : List ℚ :=
  if h : 0 ≤ minB ∧ 0 < maxB ∧ minB < remaining then
    let d := min remaining maxB
    d :: formatBreakTags minB maxB (remaining - d)
  else []
termination_by (⌈remaining / maxB⌉).toNat
decreasing_by
  have hmin : (0:ℚ) ≤ minB := h.1
  have hmax : (0:ℚ) < maxB := h.2.1
  have hrem : minB < remaining := h.2.2
  have hrpos : (0:ℚ) < remaining := lt_of_le_of_lt hmin hrem
  rcases le_or_lt remaining maxB with hle | hlt
  · have hd : min remaining maxB = remaining := min_eq_left hle
    rw [hd]
    simp only [sub_self]
    have h1 : (0:ℚ) < remaining / maxB := div_pos hrpos hmax
    have h2 : (1:ℤ) ≤ ⌈remaining / maxB⌉ := by
      exact_mod_cast Int.le_ceil_iff.mpr (by push_cast; linarith)
    have : ((0:ℚ)/maxB) = 0 := by simp
    simp only [this, Int.ceil_zero, Int.toNat_zero]
    omega
  · have hd : min remaining maxB = maxB := min_eq_right hlt.le
    rw [hd]
    have hcl : ⌈(remaining - maxB) / maxB⌉ = ⌈remaining / maxB⌉ - 1 := by
      rw [sub_div, div_self (ne_of_gt hmax)]
      exact Int.ceil_sub_one _
    have h2 : (1:ℤ) ≤ ⌈remaining / maxB⌉ := by
      have h1 : (0:ℚ) < remaining / maxB := div_pos hrpos hmax
      exact_mod_cast Int.le_ceil_iff.mpr (by push_cast; linarith)
    rw [hcl]
    omega

/-! ## Word-alignment normalizer (src/src/services/apiOptimized.ts) -/

/-- Word timing derived from ElevenLabs alignment data. -/
structure WordAlignment where
  word : String
  startTime : ℚ
  endTime : ℚ
deriving DecidableEq

/-- JavaScript `String.prototype.trim` on the character list of a string. -/
def trimChars (l : List Char) : List Char :=
  ((l.dropWhile Char.isWhitespace).reverse.dropWhile Char.isWhitespace).reverse

/-- Whether `needle` occurs as a contiguous substring of `hay`
(JavaScript `String.prototype.includes`). -/
def hasSubstr (needle : List Char) : List Char → Bool
  | [] => needle.isEmpty
  | c :: rest => needle.isPrefixOf (c :: rest) || hasSubstr needle rest

/-- Accumulator state of the character scan in `characterAlignmentToWords`. -/
structure CawState where
  words : List WordAlignment
  currentWord : List Char
  wordStartTime : ℚ
  wordEndTime : ℚ

/-- The `pushWord` closure of `characterAlignmentToWords`: trim the
accumulator, drop it if empty, starting with `<`, or containing
`break`; otherwise emit a `WordAlignment` entry. -/
def pushWord (st : CawState) : CawState :=
  let cleaned := trimChars st.currentWord
  if cleaned.isEmpty then { st with currentWord := [] }
  else if cleaned.head? = some '<' || hasSubstr "break".data cleaned then
    { st with currentWord := [] }
  else
    { st with
      words := st.words ++ [⟨⟨cleaned⟩, st.wordStartTime, st.wordEndTime⟩]
      currentWord := [] }

/-- One step of the character scan: whitespace closes the current word,
a non-whitespace character extends it (recording the first character's
start time and the running last character's end time). -/
def cawStep (st : CawState) (c : Char) (s e : ℚ) : CawState :=
  if c.isWhitespace then pushWord st
  else
    { st with
      wordStartTime := if st.currentWord.isEmpty then s else st.wordStartTime
      currentWord := st.currentWord ++ [c]
      wordEndTime := e }

/-- Convert character-level alignment to word-level alignment
(`characterAlignmentToWords`).  The source takes three parallel arrays
`characters`, `startTimes`, `endTimes` and iterates over
`characters.length`; we zip them, which agrees whenever the arrays
have equal length.  A final `pushWord` flushes a trailing word. -/
def characterAlignmentToWords (characters : List Char)
    (startTimes endTimes : List ℚ) : List WordAlignment :=
  let triples := characters.zip (startTimes.zip endTimes)
  (pushWord (triples.foldl (fun st t => cawStep st t.1 t.2.1 t.2.2)
    ⟨[], [], 0, 0⟩)).words

/-! ## Splice points and silence injection (src/src/services/apiOptimized.ts) -/

/-- A sentence end where silence will be injected. -/
structure SplicePoint where
  endTime : ℚ
  word : String
deriving DecidableEq

/-- Whether a word matches the `/[.?!]$/` regex: its last character is
terminal punctuation. -/
def endsWithTerminal (w : String) : Bool :=
  match w.data.getLast? with
  | some c => c = '.' || c = '?' || c = '!'
  | Option.none => false

/-- Find sentence-end splice points in a word alignment
(`findSplicePoints`). -/
def findSplicePoints (alignment : List WordAlignment) : List SplicePoint :=
  (alignment.filter (fun w => endsWithTerminal w.word)).map
    (fun w => ⟨w.endTime, w.word⟩)

/-- 2 seconds of silence reserved for the very end (`END_SILENCE_SECONDS`). -/
def END_SILENCE_SECONDS : ℚ := 2

/-- A decoded audio buffer: sample rate, nominal sample count and one
rational sample list per channel (the Web Audio `AudioBuffer`). -/
structure AudioBuffer where
  sampleRate : ℕ
  numSamples : ℕ
  channels : List (List ℚ)
deriving DecidableEq

/-- `AudioBuffer.duration = length / sampleRate`. -/
def AudioBuffer.duration (b : AudioBuffer) : ℚ :=
  (b.numSamples : ℚ) / (b.sampleRate : ℚ)

/-- A typed-array `dst.set(src, pos)` write: overwrite `dst` starting
at index `pos` with the elements of `src`.  (The source only calls
this with `pos + src.length ≤ dst.length`, where it preserves length.) -/
def writeAt (dst : List ℚ) (pos : ℕ) (src : List ℚ) : List ℚ :=
  dst.take pos ++ src ++ dst.drop (pos + src.length)

/-- Loop state of the per-channel splice loop in
`injectSilenceBetweenSentences`. -/
structure SpliceState where
  idx : ℕ
  writePos : ℕ
  prevEndSample : ℕ
  out : List ℚ

/-- One iteration of the splice loop: copy the speech segment up to the
current splice point's end-time sample (guarded against empty chunks
and output overruns), then — except after the very last splice point —
advance the write cursor over the allocated silence gap. -/
def spliceStep (src : List ℚ) (sampleRate : ℕ) (numPoints : ℕ)
    (silenceChunkDuration : ℚ) (st : SpliceState) (p : SplicePoint) : SpliceState :=
  let isLast := st.idx = numPoints - 1
  let endSample := min (⌊p.endTime * (sampleRate : ℚ)⌋).toNat src.length
  let chunkLen := endSample - st.prevEndSample
  let stepOut :=
    if 0 < chunkLen ∧ st.writePos + chunkLen ≤ st.out.length then
      (writeAt st.out st.writePos ((src.drop st.prevEndSample).take chunkLen),
        st.writePos + chunkLen)
    else (st.out, st.writePos)
  let writePos :=
    if ¬isLast ∧ 0 < silenceChunkDuration then
      stepOut.2 + (⌊silenceChunkDuration * (sampleRate : ℚ)⌋).toNat
    else stepOut.2
  ⟨st.idx + 1, writePos, endSample, stepOut.1⟩

/-- Build one output channel of `injectSilenceBetweenSentences`: start
from a zero-filled buffer, run the splice loop over all splice points,
then copy any remaining speech between the last splice point and the
true-speech-end sample index. -/
def spliceChannel (src : List ℚ) (sampleRate : ℕ) (points : List SplicePoint)
    (silenceChunkDuration actualSpeechEnd : ℚ) (totalOutputSamples : ℕ) : List ℚ :=
  let init : SpliceState := ⟨0, 0, 0, List.replicate totalOutputSamples 0⟩
  let st := points.foldl
    (spliceStep src sampleRate points.length silenceChunkDuration) init
  let speechEndSample := min (⌈actualSpeechEnd * (sampleRate : ℚ)⌉).toNat src.length
  if st.prevEndSample < speechEndSample then
    let remaining := speechEndSample - st.prevEndSample
    if st.writePos + remaining ≤ st.out.length then
      writeAt st.out st.writePos ((src.drop st.prevEndSample).take remaining)
    else st.out
  else st.out

/-- Result of the silence injector, before WAV serialization:
either the original bytes repackaged as a blob of the given MIME type
(decode-failure fallback) or an audio buffer handed to
`audioBufferToWav`. -/
inductive InjectResult (β : Type) where
  | origBlob (bytes : β) (mime : String)
  | wavBlob (buffer : AudioBuffer)
deriving DecidableEq

/-- The 5-step silence-injection pipeline
(`injectSilenceBetweenSentences`).  `decoded` is the result of
`decodeAudioData` on `audioBytes` (`none` when decoding threw). -/
def injectSilenceBetweenSentences {β : Type} (decoded : Option AudioBuffer)
    (audioBytes : β) (alignment : List WordAlignment)
    (targetDurationSeconds : ℚ) : InjectResult β :=
  match decoded with
  | Option.none => .origBlob audioBytes "audio/mpeg"
  | some decodedAudio =>
    let sampleRate := decodedAudio.sampleRate
    let decodedDuration := decodedAudio.duration
    let lastAlignmentEndTime : ℚ :=
      match alignment.getLast? with
      | some w => w.endTime
      | Option.none => 0
    let actualSpeechEnd :=
      if 0 < lastAlignmentEndTime then lastAlignmentEndTime else decodedDuration
    let totalSilenceNeeded := max 0 (targetDurationSeconds - actualSpeechEnd)
    if totalSilenceNeeded ≤ 0 then .wavBlob decodedAudio
    else
      let endSilence := min END_SILENCE_SECONDS totalSilenceNeeded
      let distributableSilence := totalSilenceNeeded - endSilence
      let splicePoints := findSplicePoints alignment
      if splicePoints.length = 0 then
        let totalSamples := (⌈targetDurationSeconds * (sampleRate : ℚ)⌉).toNat
        .wavBlob ⟨sampleRate, totalSamples,
          decodedAudio.channels.map
            (fun ch => writeAt (List.replicate totalSamples 0) 0 ch)⟩
      else
        let insertionPoints :=
          if 1 < splicePoints.length then splicePoints.length - 1
          else splicePoints.length
        let silenceChunkDuration :=
          if 0 < distributableSilence then
            distributableSilence / (insertionPoints : ℚ)
          else 0
        let totalOutputSamples := (⌈targetDurationSeconds * (sampleRate : ℚ)⌉).toNat
        .wavBlob ⟨sampleRate, totalOutputSamples,
          decodedAudio.channels.map
            (fun src => spliceChannel src sampleRate splicePoints
              silenceChunkDuration actualSpeechEnd totalOutputSamples)⟩

/-! ## WAV encoders (audioBufferToWav in apiOptimized.ts, encodeWavFast
in the optimized audio-processing module) -/

/-- JavaScript number-to-integer truncation (toward zero). -/
def jsTrunc (q : ℚ) : ℤ :=
  if 0 ≤ q then ⌊q⌋ else ⌈q⌉

/-- JavaScript `| 0` (ToInt32): truncate toward zero and wrap into the
signed 32-bit range. -/
def toInt32 (q : ℚ) : ℤ :=
  (jsTrunc q + 2 ^ 31) % 2 ^ 32 - 2 ^ 31

/-- Per-sample 16-bit conversion of `audioBufferToWav`: clamp to
`[-1, 1]`, then scale negatives by `0x8000` and non-negatives by
`0x7FFF` (the value `DataView.setInt16` then truncates). -/
def audioBufferToWavSample (s : ℚ) : ℤ :=
  let sample := max (-1) (min 1 s)
  jsTrunc (if sample < 0 then sample * 32768 else sample * 32767)

/-- Per-sample 16-bit conversion of `encodeWavFast`:
`Math.max(-32768, Math.min(32767, (ch[i] * 32767) | 0))`. -/
def encodeWavFastSample (s : ℚ) : ℤ :=
  max (-32768) (min 32767 (toInt32 (s * 32767)))

/-- The interleaved 16-bit payload written by `audioBufferToWav`. -/
def audioBufferToWavData (b : AudioBuffer) : List ℤ :=
  (List.range b.numSamples).flatMap
    (fun i => b.channels.map (fun ch => audioBufferToWavSample (ch.getD i 0)))

/-- The interleaved 16-bit payload written by `encodeWavFast` (its
mono fast path writes the same values as the interleaving loop). -/
def encodeWavFastData (channels : List (List ℚ)) : List ℤ :=
  let numSamples := (channels.headD []).length
  (List.range numSamples).flatMap
    (fun i => channels.map (fun ch => encodeWavFastSample (ch.getD i 0)))

/-! ## Multi-clip concatenator (freeTierAudio.ts) -/

/-- `source.getChannelData(Math.min(channelIndex, source.numberOfChannels - 1))`:
a narrower source reuses its last available channel. -/
def chanData (b : AudioBuffer) (i : ℕ) : List ℚ :=
  b.channels.getD (min i (b.channels.length - 1)) []

/-- Concatenate intro, middle and outro with two equal silence gaps
around the middle clip (`concatenateWithSilenceGaps`).  The target
duration is the hard-coded constant `60` of the source; the output
buffer is then handed to `audioBufferToWav`. -/
def concatenateWithSilenceGaps (intro middle outro : AudioBuffer) : AudioBuffer :=
  let sampleRate := intro.sampleRate
  let numberOfChannels :=
    max intro.channels.length (max middle.channels.length outro.channels.length)
  let totalClipDuration := intro.duration + middle.duration + outro.duration
  let targetDuration : ℚ := 60
  let remainingTime := max 1 (targetDuration - totalClipDuration)
  let gapDuration := remainingTime / 2
  let outputDuration := totalClipDuration + gapDuration * 2
  let outputLength := (⌈outputDuration * (sampleRate : ℚ)⌉).toNat
  let gapSamples := (⌊gapDuration * (sampleRate : ℚ)⌋).toNat
  let channels := (List.range numberOfChannels).map (fun chIdx =>
    let o1 := writeAt (List.replicate outputLength 0) 0 (chanData intro chIdx)
    let w1 := intro.numSamples
    let o2 := writeAt o1 (w1 + gapSamples) (chanData middle chIdx)
    let w2 := w1 + gapSamples + middle.numSamples
    writeAt o2 (w2 + gapSamples) (chanData outro chIdx))
  ⟨sampleRate, outputLength, channels⟩

/-! ## Break-point waveform stretcher (optimized audio-processing module) -/

/-- A detected quiet region: sample position (centre of the region)
and its length. -/
structure BreakPoint where
  pos : ℕ
  len : ℕ
deriving DecidableEq

/-- Pre-computed fade curve length (30ms at 44100Hz). -/
def FADE_SAMPLES : ℕ := 1323

/-- The smoothstep curve `t * t * (3 - 2 * t)`. -/
def smoothstep (t : ℚ) : ℚ := t * t * (3 - 2 * t)

/-- `FADE_CURVE_IN[j]`: `none` models an out-of-range (undefined) read. -/
def fadeCurveIn (j : ℕ) : Option ℚ :=
  if j < FADE_SAMPLES then some (smoothstep ((j : ℚ) / (FADE_SAMPLES : ℚ))) else Option.none

/-- `FADE_CURVE_OUT[j]`: `none` models an out-of-range (undefined) read. -/
def fadeCurveOut (j : ℕ) : Option ℚ :=
  if j < FADE_SAMPLES then some (1 - smoothstep ((j : ℚ) / (FADE_SAMPLES : ℚ)))
  else Option.none

/-- JavaScript `x || d`: `d` when `x` is undefined or `0`. -/
def orElseJs (x : Option ℚ) (d : ℚ) : ℚ :=
  match x with
  | some v => if v = 0 then d else v
  | Option.none => d

/-- Mean square of `data` over `[start, endIdx)`; `fastRMS` compares
`Math.sqrt` of this against the threshold, which we model by comparing
the mean square against the squared threshold. -/
def fastRMSsq (data : List ℚ) (start endIdx : ℕ) : ℚ :=
  ((List.range (endIdx - start)).map (fun k => data.getD (start + k) 0 ^ 2)).sum /
    ((endIdx - start : ℕ) : ℚ)

/-- `applyFadeOut`: scale the `fadeSamples` samples before `pos` by the
fade-out curve (out-of-range curve reads coerce to `0` via `|| 0`). -/
def applyFadeOut (data : List ℚ) (pos : ℕ) (sampleRate : ℕ) : List ℚ :=
  let fadeSamples := min ((⌊(sampleRate : ℚ) * (3 / 100)⌋).toNat) FADE_SAMPLES
  let scale := (FADE_SAMPLES : ℚ) / (fadeSamples : ℚ)
  let start := pos - fadeSamples
  (List.range fadeSamples).foldl (fun d i =>
    if start + i < d.length then
      d.set (start + i)
        (d.getD (start + i) 0 * orElseJs (fadeCurveOut ((⌊(i : ℚ) * scale⌋).toNat)) 0)
    else d) data

/-- `applyFadeIn`: scale the `fadeSamples` samples from `pos` by the
fade-in curve (out-of-range and zero curve reads coerce to `1` via
`|| 1`). -/
def applyFadeIn (data : List ℚ) (pos : ℕ) (sampleRate : ℕ) : List ℚ :=
  let fadeSamples := min ((⌊(sampleRate : ℚ) * (3 / 100)⌋).toNat) FADE_SAMPLES
  let scale := (FADE_SAMPLES : ℚ) / (fadeSamples : ℚ)
  (List.range fadeSamples).foldl (fun d i =>
    if pos + i < d.length then
      d.set (pos + i)
        (d.getD (pos + i) 0 * orElseJs (fadeCurveIn ((⌊(i : ℚ) * scale⌋).toNat)) 1)
    else d) data

/-- `findBreaksFast`: scan coarse RMS windows between the edge guard
offsets; a sub-threshold run of at least `minSilenceSamples` yields a
break at its centre.  `iterCount` counts the source's loop iterations
(`i` from `startOffset` to `endOffset` in `coarseWindow` steps); the
`coarseWindow = 0` guard is the precondition without which that loop
would not terminate (it needs `sampleRate ≥ 13`). -/
def findBreaksFast (data : List ℚ) (sampleRate : ℕ) : List BreakPoint :=
  let coarseWindow := (⌊(sampleRate : ℚ) * 80 / 1000⌋).toNat
  let minSilenceSamples := (⌊(sampleRate : ℚ) * 350 / 1000⌋).toNat
  let startOffset := (⌊(sampleRate : ℚ) * (4 / 10)⌋).toNat
  let endOffset := data.length - startOffset
  let iterCount :=
    if coarseWindow = 0 then 0
    else (endOffset - startOffset + coarseWindow - 1) / coarseWindow
  let step := fun (st : List BreakPoint × Option ℕ) (k : ℕ) =>
    let i := startOffset + k * coarseWindow
    let endIdx := min (i + coarseWindow) data.length
    if fastRMSsq data i endIdx < (12 / 1000) ^ 2 then
      match st.2 with
      | some _ => st
      | Option.none => (st.1, some i)
    else
      match st.2 with
      | some s =>
        let len := i - s
        if minSilenceSamples ≤ len then (st.1 ++ [⟨s + len / 2, len⟩], Option.none)
        else (st.1, Option.none)
      | Option.none => st
  ((List.range iterCount).foldl step ([], Option.none)).1

/-- Build one output channel of `stretchAudioToFitDuration`'s
break-distribution path: copy segments between breaks, fade out before
each inserted gap, preview up to 1000 faded-in samples after it, and
copy the remaining audio at the end. -/
def stretchChannel (input : List ℚ) (sampleRate : ℕ) (targetSamples : ℕ)
    (breaks : List BreakPoint) (silencePerBreak : ℕ) : List ℚ :=
  let init : ℕ × ℕ × List ℚ := (0, 0, List.replicate targetSamples 0)
  let st := breaks.foldl (fun st bp =>
    let readPos := st.1
    let out := st.2.2
    let segLen := bp.pos - readPos
    let p1 :=
      if 0 < segLen ∧ st.2.1 + segLen ≤ out.length then
        (writeAt out st.2.1 ((input.drop readPos).take segLen), st.2.1 + segLen)
      else (out, st.2.1)
    let readPos' := bp.pos
    let out2 := applyFadeOut p1.1 p1.2 sampleRate
    let writePos := p1.2 + silencePerBreak
    let out3 :=
      if writePos < out2.length ∧ readPos' < input.length then
        let copyLen := min 1000 (min (input.length - readPos') (out2.length - writePos))
        applyFadeIn (writeAt out2 writePos ((input.drop readPos').take copyLen))
          writePos sampleRate
      else out2
    (readPos', writePos, out3)) init
  let remaining := input.length - st.1
  if 0 < remaining ∧ st.2.1 < st.2.2.length then
    writeAt st.2.2 st.2.1
      ((input.drop st.1).take (min remaining (st.2.2.length - st.2.1)))
  else st.2.2

/-- Result of the stretcher: the unchanged original blob (early exit)
or channel data handed to `encodeWavFast`. -/
inductive StretchResult (β : Type) where
  | originalBlob (blob : β)
  | wavBlob (channels : List (List ℚ)) (sampleRate : ℕ)
deriving DecidableEq

/-- `stretchAudioToFitDuration`.  `decoded` is the result of
`decodeAudioData` on the blob's bytes; the source has no handler
around that call, so a decode failure propagates as a rejection, which
we model as `none`. -/
def stretchAudioToFitDuration {β : Type} (decoded : Option AudioBuffer)
    (audioBlob : β) (targetDurationSeconds : ℚ) : Option (StretchResult β) :=
  match decoded with
  | Option.none => Option.none
  | some audioBuffer =>
    let sampleRate := audioBuffer.sampleRate
    let originalDuration := audioBuffer.duration
    if targetDurationSeconds * (95 / 100) ≤ originalDuration then
      some (.originalBlob audioBlob)
    else
      let silenceNeeded := targetDurationSeconds - originalDuration
      let silenceNeededSamples := (⌊silenceNeeded * (sampleRate : ℚ)⌋).toNat
      let breaks := findBreaksFast (audioBuffer.channels.headD []) sampleRate
      let targetSamples := (⌈targetDurationSeconds * (sampleRate : ℚ)⌉).toNat
      if breaks.length = 0 then
        some (.wavBlob (audioBuffer.channels.map (fun input =>
          applyFadeOut (writeAt (List.replicate targetSamples 0) 0 input)
            input.length sampleRate)) sampleRate)
      else
        let silencePerBreak := silenceNeededSamples / breaks.length
        let sorted := breaks.mergeSort (fun a b => Nat.ble a.pos b.pos)
        some (.wavBlob (audioBuffer.channels.map (fun input =>
          stretchChannel input sampleRate targetSamples sorted silencePerBreak))
          sampleRate)

/-! ## Write-cursor lemmas -/

/-- Writing into a zero buffer at offset `k` surrounds the segment with
the untouched zero regions. -/
lemma writeAt_replicate (n k : ℕ) (seg : List ℚ) (h : k + seg.length ≤ n) :
    writeAt (List.replicate n 0) k seg =
      List.replicate k 0 ++ seg ++ List.replicate (n - k - seg.length) 0 := by
  unfold writeAt
  rw [List.take_replicate, List.drop_replicate]
  have h1 : min k n = k := by omega
  have h2 : n - (k + seg.length) = n - k - seg.length := by omega
  rw [h1, h2]

/-- Writing into a buffer of the form `A ++ zeros` at an offset `k`
past `A` turns `k` of the zeros into a gap and keeps the rest. -/
lemma writeAt_append_replicate (A seg : List ℚ) (k m : ℕ)
    (h : k + seg.length ≤ m) :
    writeAt (A ++ List.replicate m 0) (A.length + k) seg =
      (A ++ List.replicate k 0 ++ seg) ++
        List.replicate (m - k - seg.length) 0 := by
  unfold writeAt
  rw [List.take_append_eq_append_take, List.drop_append_eq_append_drop]
  have h1 : A.take (A.length + k) = A := List.take_of_length_le (by omega)
  have h2 : A.length + k - A.length = k := by omega
  have h3 : A.drop (A.length + k + seg.length) = [] :=
    List.drop_eq_nil_of_le (by omega)
  have h4 : A.length + k + seg.length - A.length = k + seg.length := by omega
  rw [h1, h2, h3, h4, List.take_replicate, List.drop_replicate]
  have h5 : min k m = k := by omega
  have h6 : m - (k + seg.length) = m - k - seg.length := by omega
  rw [h5, h6]
  simp [List.append_assoc]

/-- Length of a guarded in-bounds write. -/
lemma writeAt_length (dst seg : List ℚ) (pos : ℕ)
    (h : pos + seg.length ≤ dst.length) :
    (writeAt dst pos seg).length = dst.length := by
  unfold writeAt
  simp only [List.length_append, List.length_take, List.length_drop]
  omega

/-! ## Theorems -/

/-- C8: `calculateTargetWordCount durationSeconds` equals
`round (durationSeconds / 60 * 28)` with the sparse profile constant of
28 words per minute; it is non-negative for non-negative durations,
monotonically non-decreasing, and maps 60 seconds to 28 words. -/
theorem calculateTargetWordCount_spec :
    (∀ d : ℚ, calculateTargetWordCount d = round (d / 60 * 28)) ∧
    (∀ d : ℚ, 0 ≤ d → 0 ≤ calculateTargetWordCount d) ∧
    (∀ d₁ d₂ : ℚ, d₁ ≤ d₂ → calculateTargetWordCount d₁ ≤ calculateTargetWordCount d₂) ∧
    calculateTargetWordCount 60 = 28 := by
  refine ⟨fun d => rfl, fun d hd => ?_, fun d₁ d₂ h => ?_, ?_⟩
  · unfold calculateTargetWordCount TARGET_WORDS_PER_MINUTE
    rw [round_eq]
    apply Int.floor_nonneg.mpr
    have : (0:ℚ) ≤ d / 60 * 28 := by positivity
    linarith
  · unfold calculateTargetWordCount TARGET_WORDS_PER_MINUTE
    rw [round_eq, round_eq]
    apply Int.floor_mono
    have : d₁ / 60 ≤ d₂ / 60 := by linarith
    linarith
  · unfold calculateTargetWordCount TARGET_WORDS_PER_MINUTE
    rw [round_eq]
    norm_num

/-- C8 witness: the hypotheses of `calculateTargetWordCount_spec`
discharged at concrete durations 90 and 120 seconds. -/
theorem calculateTargetWordCount_spec_witness :
    (0:ℚ) ≤ 90 ∧ 0 ≤ calculateTargetWordCount 90 ∧
    ((90:ℚ) ≤ 120 ∧ calculateTargetWordCount 90 ≤ calculateTargetWordCount 120) :=
  ⟨by norm_num, calculateTargetWordCount_spec.2.1 90 (by norm_num),
    by norm_num, calculateTargetWordCount_spec.2.2.1 90 120 (by norm_num)⟩

/-- C2 counterexample: on a decode failure the Break-Point Waveform
Stretcher does not return the original bytes — the failure propagates
to its caller (modelled as `none`), because `stretchAudioToFitDuration`
has no handler around `decodeAudioData`. -/
theorem stretch_decode_failure_counterexample :
    stretchAudioToFitDuration (β := ℕ) Option.none 0 10 = Option.none ∧
    stretchAudioToFitDuration (β := ℕ) Option.none 0 10 ≠
      some (.originalBlob 0) :=
  ⟨rfl, fun h => Option.noConfusion h⟩

/-- C2 amended: only the Sentence-Boundary Silence Injector recovers
from a decode failure by returning the original bytes as an
`audio/mpeg` blob; the stretcher propagates the decode failure to its
caller. -/
theorem decode_failure_handling {β : Type} :
    (∀ (bytes : β) (alignment : List WordAlignment) (target : ℚ),
      injectSilenceBetweenSentences Option.none bytes alignment target =
        .origBlob bytes "audio/mpeg") ∧
    (∀ (blob : β) (target : ℚ),
      stretchAudioToFitDuration Option.none blob target = Option.none) :=
  ⟨fun _ _ _ => rfl, fun _ _ => rfl⟩

/-- C4: when the last alignment entry's end time already meets or
exceeds the target duration, the injector returns the decoded buffer
unchanged (to be re-encoded by `audioBufferToWav`): same samples, no
silence inserted, nothing truncated. -/
theorem inject_already_long_enough {β : Type} (buf : AudioBuffer) (bytes : β)
    (alignment : List WordAlignment) (target : ℚ) (w : WordAlignment)
    (hlast : alignment.getLast? = some w) (hge : target ≤ w.endTime) :
    injectSilenceBetweenSentences (some buf) bytes alignment target =
      .wavBlob buf := by
  have hdur : (0:ℚ) ≤ buf.duration := by
    unfold AudioBuffer.duration; positivity
  have hcond : max 0 (target - (if 0 < w.endTime then w.endTime else buf.duration)) ≤ 0 := by
    by_cases h : 0 < w.endTime
    · rw [if_pos h, max_le_iff]
      constructor <;> linarith
    · push_neg at h
      rw [if_neg (not_lt.mpr h), max_le_iff]
      constructor <;> linarith
  simp only [injectSilenceBetweenSentences, hlast]
  rw [if_pos hcond]

/-- C4 witness: a concrete 5-second buffer whose alignment ends at 5
seconds, fed back with target 4 seconds, comes back unchanged. -/
theorem inject_already_long_enough_witness :
    ([(⟨"hi.", 1, 5⟩ : WordAlignment)].getLast? = some ⟨"hi.", 1, 5⟩ ∧
      (4:ℚ) ≤ (⟨"hi.", 1, 5⟩ : WordAlignment).endTime) ∧
    injectSilenceBetweenSentences (some ⟨10, 50, [List.replicate 50 0]⟩) (0 : ℕ)
      [⟨"hi.", 1, 5⟩] 4 = .wavBlob ⟨10, 50, [List.replicate 50 0]⟩ :=
  ⟨⟨rfl, by norm_num⟩,
    inject_already_long_enough ⟨10, 50, [List.replicate 50 0]⟩ 0 [⟨"hi.", 1, 5⟩] 4
      ⟨"hi.", 1, 5⟩ rfl (by norm_num)⟩

/-- C9: whenever the decoded input's duration is at least 95% of the
target duration, `stretchAudioToFitDuration` returns the input blob
completely unchanged (no re-encode, no silence), so for targets up to
about 5% above the input's duration the output undershoots the target. -/
theorem stretch_early_exit {β : Type} (buf : AudioBuffer) (blob : β) (target : ℚ)
    (h : target * (95 / 100) ≤ buf.duration) :
    stretchAudioToFitDuration (some buf) blob target =
      some (.originalBlob blob) := by
  simp only [stretchAudioToFitDuration]
  rw [if_pos h]

/-- C9 witness: a 10-second buffer with a 10.5-second target (within
5%) is returned unchanged. -/
theorem stretch_early_exit_witness :
    ((21:ℚ)/2) * (95 / 100) ≤ (⟨10, 100, [List.replicate 100 0]⟩ : AudioBuffer).duration ∧
    stretchAudioToFitDuration (some ⟨10, 100, [List.replicate 100 0]⟩) (0 : ℕ)
      ((21:ℚ)/2) = some (.originalBlob 0) :=
  ⟨by norm_num [AudioBuffer.duration],
    stretch_early_exit ⟨10, 100, [List.replicate 100 0]⟩ 0 ((21:ℚ)/2)
      (by norm_num [AudioBuffer.duration])⟩

/-- C6 counterexample: the two encoders do not share one conversion
scheme.  At sample `-1/2`, `audioBufferToWav`'s clamp-then-asymmetric
conversion gives `-16384`, but `encodeWavFast` gives `-16383`: it
scales by 32767 regardless of sign and clamps only the resulting
integer, so it does not clamp to `[-1, 1]` before scaling and does not
use the 32768 negative factor. -/
theorem encodeWavFast_conversion_counterexample :
    encodeWavFastSample (-1/2) = -16383 ∧
      audioBufferToWavSample (-1/2) = -16384 ∧
      encodeWavFastSample (-1/2) ≠ audioBufferToWavSample (-1/2) := by
  have h1 : encodeWavFastSample (-1/2) = -16383 := by
    have hc : (⌈(-1/2 : ℚ) * 32767⌉ : ℤ) = -16383 := by
      rw [Int.ceil_eq_iff] <;> norm_num
    simp only [encodeWavFastSample, toInt32, jsTrunc]
    rw [if_neg (by norm_num), hc]
    norm_num [min_def, max_def]
  have h2 : audioBufferToWavSample (-1/2) = -16384 := by
    have hmin : min (1:ℚ) (-1/2) = -1/2 := by norm_num [min_def]
    have hmax : max (-1:ℚ) (-1/2) = -1/2 := by norm_num [max_def]
    have hc : (⌈(-1/2 : ℚ) * 32768⌉ : ℤ) = -16384 := by
      rw [Int.ceil_eq_iff] <;> norm_num
    simp only [audioBufferToWavSample, jsTrunc, hmin, hmax]
    rw [if_pos (by norm_num : (-1/2 : ℚ) < 0), if_neg (by norm_num), hc]
  exact ⟨h1, h2, by rw [h1, h2]; decide⟩

/-- C6 amended: `audioBufferToWav` clamps each sample to `[-1, 1]` and
scales negatives by 32768 and non-negatives by 32767, while
`encodeWavFast` scales every sample by 32767, truncates, and clamps
the integer to `[-32768, 32767]`; both conversions always produce
values in the signed 16-bit range, and the asymmetry shows at the
extremes: `-1` maps to `-32768` in the former but `-32767` in the
latter. -/
theorem wavEncoders_sample_spec :
    (∀ s : ℚ, -32768 ≤ audioBufferToWavSample s ∧ audioBufferToWavSample s ≤ 32767) ∧
    (∀ s : ℚ, -32768 ≤ encodeWavFastSample s ∧ encodeWavFastSample s ≤ 32767) ∧
    (∀ s : ℚ, s < 0 → -1 ≤ s →
      audioBufferToWavSample s = jsTrunc (s * 32768)) ∧
    (∀ s : ℚ, encodeWavFastSample s = max (-32768) (min 32767 (toInt32 (s * 32767)))) ∧
    audioBufferToWavSample (-1) = -32768 ∧ audioBufferToWavSample 1 = 32767 ∧
    encodeWavFastSample (-1) = -32767 ∧ encodeWavFastSample 1 = 32767 := by
  have habs : ∀ s : ℚ, -32768 ≤ audioBufferToWavSample s ∧
      audioBufferToWavSample s ≤ 32767 := by
    intro s
    simp only [audioBufferToWavSample, jsTrunc]
    have h1 : (-1:ℚ) ≤ max (-1) (min 1 s) := le_max_left _ _
    have h2 : max (-1) (min 1 s) ≤ 1 := max_le (by norm_num) (min_le_left _ _)
    by_cases hneg : max (-1) (min 1 s) < 0
    · rw [if_pos hneg]
      have hsc : (-32768:ℚ) ≤ max (-1) (min 1 s) * 32768 := by nlinarith
      have hsc2 : max (-1) (min 1 s) * 32768 < 0 := by nlinarith
      rw [if_neg (not_le.mpr hsc2)]
      constructor
      · have := Int.ceil_mono hsc
        simpa using this
      · have h3 : (⌈max (-1) (min 1 s) * 32768⌉ : ℤ) ≤ ⌈(0:ℚ)⌉ := Int.ceil_mono hsc2.le
        simp only [Int.ceil_zero] at h3
        omega
    · push_neg at hneg
      rw [if_neg (not_lt.mpr hneg)]
      have hsc : (0:ℚ) ≤ max (-1) (min 1 s) * 32767 := by positivity
      have hsc2 : max (-1) (min 1 s) * 32767 ≤ 32767 := by nlinarith
      rw [if_pos hsc]
      constructor
      · have h3 : (⌊(0:ℚ)⌋ : ℤ) ≤ ⌊max (-1) (min 1 s) * 32767⌋ := Int.floor_mono hsc
        simp only [Int.floor_zero] at h3
        omega
      · have := Int.floor_mono hsc2
        simpa using this
  refine ⟨habs, fun s => ?_, fun s hs hs1 => ?_, fun s => rfl, ?_, ?_, ?_, ?_⟩
  · unfold encodeWavFastSample
    exact ⟨le_max_left _ _, max_le (by norm_num) (min_le_left _ _)⟩
  · have h1 : min 1 s = s := min_eq_right (by linarith)
    have h2 : max (-1) s = s := max_eq_right hs1
    unfold audioBufferToWavSample
    rw [h1, h2]
    show jsTrunc (if s < 0 then s * 32768 else s * 32767) = jsTrunc (s * 32768)
    rw [if_pos hs]
  · have hmin : min (1:ℚ) (-1) = -1 := by norm_num [min_def]
    have hmax : max (-1:ℚ) (-1) = -1 := by norm_num [max_def]
    have hc : (⌈(-1 : ℚ) * 32768⌉ : ℤ) = -32768 := by
      rw [Int.ceil_eq_iff] <;> norm_num
    simp only [audioBufferToWavSample, jsTrunc, hmin, hmax]
    rw [if_pos (by norm_num : (-1 : ℚ) < 0), if_neg (by norm_num), hc]
  · have hmin : min (1:ℚ) 1 = 1 := by norm_num
    have hmax : max (-1:ℚ) 1 = 1 := by norm_num [max_def]
    simp only [audioBufferToWavSample, jsTrunc, hmin, hmax]
    rw [if_neg (by norm_num : ¬ (1 : ℚ) < 0), if_pos (by norm_num)]
    norm_num
  · have hc : (⌈(-1 : ℚ) * 32767⌉ : ℤ) = -32767 := by
      rw [Int.ceil_eq_iff] <;> norm_num
    simp only [encodeWavFastSample, toInt32, jsTrunc]
    rw [if_neg (by norm_num), hc]
    norm_num [min_def, max_def]
  · simp only [encodeWavFastSample, toInt32, jsTrunc]
    rw [if_pos (by norm_num)]
    norm_num [min_def, max_def]

/-- C6 witness: the clamp-before-scale branch hypothesis of
`wavEncoders_sample_spec` discharged at the concrete sample `-1/4`. -/
theorem wavEncoders_sample_spec_witness :
    ((-1/4 : ℚ) < 0 ∧ (-1:ℚ) ≤ -1/4) ∧
      audioBufferToWavSample (-1/4) = jsTrunc ((-1/4) * 32768) :=
  ⟨⟨by norm_num, by norm_num⟩,
    wavEncoders_sample_spec.2.2.1 (-1/4) (by norm_num) (by norm_num)⟩

/-- C5 counterexample: for the non-negative total pause `61/20 = 3.05`
seconds, `formatBreakTags` (with the default `0.1`/`3.0` bounds) emits
a single 3-second tag and then stops, because the `0.05`-second
remainder is not greater than `minBreakSeconds`; the emitted durations
sum to `3`, not to the required `3.05`. -/
theorem formatBreakTags_sum_counterexample :
    (formatBreakTags MIN_BREAK_SECONDS MAX_BREAK_SECONDS (61/20)).sum ≠ 61/20 := by
  have hmin : min ((61:ℚ)/20) MAX_BREAK_SECONDS = 3 := by
    norm_num [MAX_BREAK_SECONDS, min_def]
  have e1 : formatBreakTags MIN_BREAK_SECONDS MAX_BREAK_SECONDS (61/20) = [3] := by
    rw [formatBreakTags,
      dif_pos (by norm_num [MIN_BREAK_SECONDS, MAX_BREAK_SECONDS] :
        (0:ℚ) ≤ MIN_BREAK_SECONDS ∧ (0:ℚ) < MAX_BREAK_SECONDS ∧
          MIN_BREAK_SECONDS < 61/20)]
    simp only [hmin]
    rw [show (61:ℚ)/20 - 3 = 1/20 by norm_num]
    rw [formatBreakTags,
      dif_neg (by norm_num [MIN_BREAK_SECONDS, MAX_BREAK_SECONDS])]
  rw [e1]
  norm_num

/-- C5 amended: for termination-compatible bounds `0 ≤ minB < maxB`
paths and any non-negative total, every emitted tag duration is at most
the per-tag ceiling `maxB`, and the durations sum to the required
total up to a dropped remainder of at most `minBreakSeconds`:
`total - minB ≤ sum ≤ total` (exact equality can fail, as the
counterexample shows). -/
theorem formatBreakTags_amended (minB maxB : ℚ) (hmin : 0 ≤ minB)
    (hmax : 0 < maxB) : ∀ total : ℚ, 0 ≤ total →
    (∀ d ∈ formatBreakTags minB maxB total, d ≤ maxB) ∧
    total - minB ≤ (formatBreakTags minB maxB total).sum ∧
    (formatBreakTags minB maxB total).sum ≤ total := by
  intro total
  induction total using formatBreakTags.induct minB maxB with
  | case1 remaining hguard d ih =>
    intro h0
    obtain ⟨h1, h2, h3⟩ := hguard
    have hd1 : min remaining maxB ≤ maxB := min_le_right _ _
    have hd2 : min remaining maxB ≤ remaining := min_le_left _ _
    have hd3 : 0 ≤ remaining - min remaining maxB := by linarith
    obtain ⟨ihA, ihB, ihC⟩ := ih hd3
    rw [formatBreakTags, dif_pos ⟨h1, h2, h3⟩]
    refine ⟨?_, ?_, ?_⟩
    · intro d hd
      rcases List.mem_cons.mp hd with h | h
      · rw [h]; exact hd1
      · exact ihA d h
    · simp only [List.sum_cons]
      linarith
    · simp only [List.sum_cons]
      linarith
  | case2 remaining hguard =>
    intro h0
    rw [formatBreakTags, dif_neg hguard]
    have hrem : remaining ≤ minB := by
      by_contra hlt
      push_neg at hlt
      exact hguard ⟨hmin, hmax, hlt⟩
    refine ⟨by simp, ?_, ?_⟩
    · simp only [List.sum_nil]
      linarith
    · simp only [List.sum_nil]
      exact h0

/-- C5 amended witness: the amended sum bounds at the concrete total
`7` seconds with the default bounds. -/
theorem formatBreakTags_amended_witness :
    ((0:ℚ) ≤ MIN_BREAK_SECONDS ∧ (0:ℚ) < MAX_BREAK_SECONDS ∧ (0:ℚ) ≤ 7) ∧
    ((7:ℚ) - MIN_BREAK_SECONDS ≤
        (formatBreakTags MIN_BREAK_SECONDS MAX_BREAK_SECONDS 7).sum ∧
      (formatBreakTags MIN_BREAK_SECONDS MAX_BREAK_SECONDS 7).sum ≤ 7) :=
  ⟨⟨by norm_num [MIN_BREAK_SECONDS], by norm_num [MAX_BREAK_SECONDS], by norm_num⟩,
    (formatBreakTags_amended MIN_BREAK_SECONDS MAX_BREAK_SECONDS
      (by norm_num [MIN_BREAK_SECONDS]) (by norm_num [MAX_BREAK_SECONDS]) 7
      (by norm_num)).2⟩

/-- C7: for a non-negative budget, non-negative weights and a positive
minimum threshold (all satisfied by the default configuration),
`distributeSilence` assigns each non-last atom
`weight * timePerWeightUnit` — where `timePerWeightUnit` is the budget
divided by the total weight of all atoms but the last, substituted by
zero when that total weight is zero — dropping any allocation below
`minBreakSeconds` to zero, and always assigns the last atom zero. -/
theorem distributeSilence_spec (atoms : List SpeechAtom) (silenceBudget : ℚ)
    (config : PacingConfig) (hb : 0 ≤ silenceBudget)
    (hw : ∀ a ∈ atoms, 0 ≤ a.weight) (hm : 0 < config.minBreakSeconds) :
    (distributeSilence atoms silenceBudget config).map (·.silenceAfter) =
      atoms.mapIdx (fun i a =>
        let totalWeight := (atoms.dropLast.map (·.weight)).sum
        let timePerWeightUnit :=
          if totalWeight = 0 then 0 else silenceBudget / totalWeight
        if i = atoms.length - 1 then 0
        else if a.weight * timePerWeightUnit < config.minBreakSeconds then 0
        else a.weight * timePerWeightUnit) := by
  have htw0 : (0:ℚ) ≤ (atoms.dropLast.map (·.weight)).sum := by
    apply List.sum_nonneg
    intro x hx
    simp only [List.mem_map] at hx
    obtain ⟨a, ha, rfl⟩ := hx
    exact hw a ((List.dropLast_sublist _).subset ha)
  have hcode_tw :
      (if 1 < atoms.length then ((atoms.dropLast.map (·.weight)).sum) else 0) =
        (atoms.dropLast.map (·.weight)).sum := by
    split
    · rfl
    · rename_i hn
      have hd : atoms.dropLast = [] := by
        cases atoms with
        | nil => rfl
        | cons a t =>
          cases t with
          | nil => rfl
          | cons b t' => simp at hn
      rw [hd]
      simp
  apply List.ext_getElem
  · simp [distributeSilence]
  · intro n h1 h2
    simp only [distributeSilence, hcode_tw, List.getElem_map, List.getElem_mapIdx]
    by_cases hlast : n = atoms.length - 1
    · simp [hlast]
    · have hn : n < atoms.length := by
        simp [distributeSilence] at h1
        exact h1
      have hwn : 0 ≤ atoms[n].weight := hw _ (List.getElem_mem hn)
      simp only [hlast, not_false_eq_true, true_and, if_neg hlast, if_false]
      by_cases htw : (atoms.dropLast.map (·.weight)).sum = 0
      · simp only [htw]
        simp [hm]
      · have htwpos : 0 < (atoms.dropLast.map (·.weight)).sum :=
          lt_of_le_of_ne htw0 (Ne.symm htw)
        simp only [if_pos htwpos, if_neg htw, if_false]
        by_cases hcond : 0 < atoms[n].weight ∧
            0 < silenceBudget / (atoms.dropLast.map (·.weight)).sum
        · rw [if_pos hcond]
        · rw [if_neg hcond]
          have hprod : atoms[n].weight *
              (silenceBudget / (atoms.dropLast.map (·.weight)).sum) = 0 := by
            push_neg at hcond
            by_cases hw0 : 0 < atoms[n].weight
            · have hdiv0 : silenceBudget / (atoms.dropLast.map (·.weight)).sum ≤ 0 :=
                hcond hw0
              have hdiv1 : 0 ≤ silenceBudget / (atoms.dropLast.map (·.weight)).sum :=
                div_nonneg hb htwpos.le
              rw [le_antisymm hdiv0 hdiv1]
              ring
            · have : atoms[n].weight = 0 := le_antisymm (not_lt.mp hw0) hwn
              rw [this]
              ring
          rw [hprod, if_pos hm]

/-- C7 witness: the hypotheses of `distributeSilence_spec` discharged
at a concrete two-atom script with budget 4 and the default
configuration. -/
theorem distributeSilence_spec_witness :
    ((0:ℚ) ≤ 4 ∧
      (∀ a ∈ [(⟨"breathe", .sentenceEnd, ".", 3, 1, 7⟩ : SpeechAtom),
          ⟨"rest", .none, "", 0, 1, 4⟩], 0 ≤ a.weight) ∧
      (0:ℚ) < DEFAULT_CONFIG.minBreakSeconds) ∧
    (distributeSilence [(⟨"breathe", .sentenceEnd, ".", 3, 1, 7⟩ : SpeechAtom),
        ⟨"rest", .none, "", 0, 1, 4⟩] 4 DEFAULT_CONFIG).map (·.silenceAfter) =
      [(⟨"breathe", .sentenceEnd, ".", 3, 1, 7⟩ : SpeechAtom),
        ⟨"rest", .none, "", 0, 1, 4⟩].mapIdx (fun i a =>
        let totalWeight :=
          (([(⟨"breathe", .sentenceEnd, ".", 3, 1, 7⟩ : SpeechAtom),
            ⟨"rest", .none, "", 0, 1, 4⟩]).dropLast.map (·.weight)).sum
        let timePerWeightUnit :=
          if totalWeight = 0 then 0 else 4 / totalWeight
        if i = ([(⟨"breathe", .sentenceEnd, ".", 3, 1, 7⟩ : SpeechAtom),
            ⟨"rest", .none, "", 0, 1, 4⟩]).length - 1 then 0
        else if a.weight * timePerWeightUnit < DEFAULT_CONFIG.minBreakSeconds then 0
        else a.weight * timePerWeightUnit) :=
  ⟨⟨by norm_num,
    by
      intro a ha
      simp only [List.mem_cons, List.not_mem_nil, or_false] at ha
      rcases ha with rfl | rfl <;> norm_num,
    by norm_num [DEFAULT_CONFIG, MIN_BREAK_SECONDS]⟩,
    distributeSilence_spec _ 4 DEFAULT_CONFIG (by norm_num)
      (by
        intro a ha
        simp only [List.mem_cons, List.not_mem_nil, or_false] at ha
        rcases ha with rfl | rfl <;> norm_num)
      (by norm_num [DEFAULT_CONFIG, MIN_BREAK_SECONDS])⟩

/-- The concrete word alignment of the spec's injection scenario:
three sentence-ending words ending at 1.2, 2.5 and 4.0 seconds. -/
def c1Alignment : List WordAlignment :=
  [⟨"calm.", 1/2, 6/5⟩, ⟨"rest.", 2, 5/2⟩, ⟨"easy.", 3, 4⟩]

lemma c1_step1 (src : List ℚ) (hlen : src.length = 45) :
    spliceStep src 10 3 2 ⟨0, 0, 0, List.replicate 100 0⟩ ⟨6/5, "calm."⟩ =
      ⟨1, 32, 12, src.take 12 ++ List.replicate 88 0⟩ := by
  have hES : (⌊(6/5 : ℚ) * ((10:ℕ) : ℚ)⌋).toNat = 12 := by
    have h12 : ⌊(6/5 : ℚ) * ((10:ℕ) : ℚ)⌋ = 12 := by norm_num
    rw [h12]
    rfl
  have hSC : (⌊(2 : ℚ) * ((10:ℕ) : ℚ)⌋).toNat = 20 := by
    have h20 : ⌊(2 : ℚ) * ((10:ℕ) : ℚ)⌋ = 20 := by norm_num
    rw [h20]
    rfl
  have hl12 : (List.take 12 src).length = 12 := by
    rw [List.length_take, hlen]
    omega
  simp only [spliceStep, hES, hSC, hlen, List.length_replicate, List.drop_zero]
  norm_num
  rw [writeAt_replicate 100 0 _ (by rw [hl12]; omega)]
  simp [hl12]

lemma c1_step2 (src : List ℚ) (hlen : src.length = 45) :
    spliceStep src 10 3 2 ⟨1, 32, 12, src.take 12 ++ List.replicate 88 0⟩
      ⟨5/2, "rest."⟩ =
      ⟨2, 65, 25, (src.take 12 ++ List.replicate 20 0 ++ (src.drop 12).take 13) ++
        List.replicate 55 0⟩ := by
  have hES : (⌊(5/2 : ℚ) * ((10:ℕ) : ℚ)⌋).toNat = 25 := by
    have h25 : ⌊(5/2 : ℚ) * ((10:ℕ) : ℚ)⌋ = 25 := by norm_num
    rw [h25]
    rfl
  have hSC : (⌊(2 : ℚ) * ((10:ℕ) : ℚ)⌋).toNat = 20 := by
    have h20 : ⌊(2 : ℚ) * ((10:ℕ) : ℚ)⌋ = 20 := by norm_num
    rw [h20]
    rfl
  have hl12 : (List.take 12 src).length = 12 := by
    rw [List.length_take, hlen]
    omega
  have hl13 : (List.take 13 (List.drop 12 src)).length = 13 := by
    rw [List.length_take, List.length_drop, hlen]
    omega
  simp only [spliceStep, hES, hSC, hlen, List.length_append,
    List.length_replicate, hl12]
  norm_num
  rw [show (32:ℕ) = (List.take 12 src).length + 20 by rw [hl12],
    writeAt_append_replicate _ _ 20 88 (by rw [hl13]; omega)]
  simp [hl13]

lemma c1_step3 (src : List ℚ) (hlen : src.length = 45) :
    spliceStep src 10 3 2
      ⟨2, 65, 25, (src.take 12 ++ List.replicate 20 0 ++ (src.drop 12).take 13) ++
        List.replicate 55 0⟩ ⟨4, "easy."⟩ =
      ⟨3, 80, 40, ((src.take 12 ++ List.replicate 20 0 ++ (src.drop 12).take 13) ++
        List.replicate 20 0 ++ (src.drop 25).take 15) ++ List.replicate 20 0⟩ := by
  have hES : (⌊(4 : ℚ) * ((10:ℕ) : ℚ)⌋).toNat = 40 := by
    have h40 : ⌊(4 : ℚ) * ((10:ℕ) : ℚ)⌋ = 40 := by norm_num
    rw [h40]
    rfl
  have hl12 : (List.take 12 src).length = 12 := by
    rw [List.length_take, hlen]
    omega
  have hl13 : (List.take 13 (List.drop 12 src)).length = 13 := by
    rw [List.length_take, List.length_drop, hlen]
    omega
  have hl15 : (List.take 15 (List.drop 25 src)).length = 15 := by
    rw [List.length_take, List.length_drop, hlen]
    omega
  have hlA : (src.take 12 ++ List.replicate 20 0 ++ (src.drop 12).take 13).length = 45 := by
    simp only [List.length_append, List.length_replicate, hl12, hl13]
  simp only [spliceStep, hES, hlen, List.length_append, List.length_replicate,
    hl12, hl13]
  norm_num
  rw [show (65:ℕ) =
      (src.take 12 ++ List.replicate 20 0 ++ (src.drop 12).take 13).length + 20 by
        rw [hlA],
    show List.take 12 src ++ (List.replicate 20 0 ++
        (List.take 13 (List.drop 12 src) ++ List.replicate 55 0)) =
      (List.take 12 src ++ List.replicate 20 0 ++ List.take 13 (List.drop 12 src)) ++
        List.replicate 55 0 by simp [List.append_assoc],
    writeAt_append_replicate _ _ 20 55 (by rw [hl15]; omega)]
  simp [hl15]

lemma c1_channel (src : List ℚ) (hlen : src.length = 45) :
    spliceChannel src 10 [⟨6/5, "calm."⟩, ⟨5/2, "rest."⟩, ⟨4, "easy."⟩] 2 4 100 =
      src.take 12 ++ List.replicate 20 0 ++ (src.drop 12).take 13 ++
        List.replicate 20 0 ++ (src.drop 25).take 15 ++ List.replicate 20 0 := by
  have hlen3 : ([⟨6/5, "calm."⟩, ⟨5/2, "rest."⟩,
      (⟨4, "easy."⟩ : SplicePoint)]).length = 3 := rfl
  simp only [spliceChannel, hlen3, List.foldl_cons, List.foldl_nil]
  rw [c1_step1 src hlen, c1_step2 src hlen, c1_step3 src hlen]
  have hSE : (⌈(4 : ℚ) * ((10:ℕ) : ℚ)⌉).toNat = 40 := by
    have h40 : ⌈(4 : ℚ) * ((10:ℕ) : ℚ)⌉ = 40 := by norm_num
    rw [h40]
    rfl
  simp only [hSE, hlen]
  norm_num

/-- C1: for the alignment with sentence-ending words at 1.2, 2.5 and
4.0 seconds and target duration 10 seconds (with a 45-sample decoded
buffer at a 10 Hz sample rate), the injector finds 3 splice points,
distributes the `10 - 4 - 2 = 4` seconds of interior silence as two
2-second gaps after the samples nearest 1.2 s and 2.5 s, copies the
source samples unchanged around the gaps up to the true speech end at
4.0 s, and returns `ceil(10 * sampleRate) = 100` samples per channel,
ending in the 2-second trailing reserve. -/
theorem inject_concrete_scenario {β : Type} (bytes : β) (src : List ℚ)
    (hlen : src.length = 45) :
    findSplicePoints c1Alignment =
      [⟨6/5, "calm."⟩, ⟨5/2, "rest."⟩, ⟨4, "easy."⟩] ∧
    injectSilenceBetweenSentences (some ⟨10, 45, [src]⟩) bytes c1Alignment 10 =
      .wavBlob ⟨10, 100,
        [src.take 12 ++ List.replicate 20 0 ++ (src.drop 12).take 13 ++
          List.replicate 20 0 ++ (src.drop 25).take 15 ++ List.replicate 20 0]⟩ := by
  have hfsp : findSplicePoints c1Alignment =
      [⟨6/5, "calm."⟩, ⟨5/2, "rest."⟩, ⟨4, "easy."⟩] := rfl
  have hlast : c1Alignment.getLast? = some ⟨"easy.", 3, 4⟩ := rfl
  have hTOS : (⌈(10:ℚ) * ((10:ℕ) : ℚ)⌉).toNat = 100 := by
    have h100 : ⌈(10:ℚ) * ((10:ℕ) : ℚ)⌉ = 100 := by norm_num
    rw [h100]
    rfl
  refine ⟨hfsp, ?_⟩
  simp only [injectSilenceBetweenSentences, hlast, hfsp, hTOS]
  norm_num
  rw [show (if END_SILENCE_SECONDS < 6 then ((6:ℚ) - END_SILENCE_SECONDS ⊓ 6) / 2
        else 0) = 2 by norm_num [END_SILENCE_SECONDS, min_def]]
  rw [c1_channel src hlen]
  simp [List.append_assoc]

/-- C1 witness: the 45-sample length hypothesis discharged at a
concrete all-ones source buffer. -/
theorem inject_concrete_scenario_witness :
    (List.replicate 45 (1:ℚ)).length = 45 ∧
    injectSilenceBetweenSentences (some ⟨10, 45, [List.replicate 45 (1:ℚ)]⟩)
      (0 : ℕ) c1Alignment 10 =
      .wavBlob ⟨10, 100,
        [(List.replicate 45 (1:ℚ)).take 12 ++ List.replicate 20 0 ++
          ((List.replicate 45 (1:ℚ)).drop 12).take 13 ++ List.replicate 20 0 ++
          ((List.replicate 45 (1:ℚ)).drop 25).take 15 ++ List.replicate 20 0]⟩ :=
  ⟨by simp, (inject_concrete_scenario 0 (List.replicate 45 1) (by simp)).2⟩

/-- C3 counterexample: the Multi-Clip Concatenator takes no target
duration — its target is hard-coded to 60 seconds — so for three
5-second mono clips the output is 60 seconds, not the 20 seconds the
claimed scenario (target 20, two 2.5-second gaps) requires. -/
theorem concat_counterexample :
    (concatenateWithSilenceGaps ⟨10, 50, [List.replicate 50 1]⟩
        ⟨10, 50, [List.replicate 50 2]⟩ ⟨10, 50, [List.replicate 50 3]⟩).duration
      = 60 ∧
    (concatenateWithSilenceGaps ⟨10, 50, [List.replicate 50 1]⟩
        ⟨10, 50, [List.replicate 50 2]⟩ ⟨10, 50, [List.replicate 50 3]⟩).duration
      ≠ 20 := by
  have hnum : (concatenateWithSilenceGaps ⟨10, 50, [List.replicate 50 1]⟩
      ⟨10, 50, [List.replicate 50 2]⟩ ⟨10, 50, [List.replicate 50 3]⟩).numSamples
      = 600 := by
    simp only [concatenateWithSilenceGaps, AudioBuffer.duration]
    norm_num [max_def]
    rfl
  have hsr : (concatenateWithSilenceGaps ⟨10, 50, [List.replicate 50 1]⟩
      ⟨10, 50, [List.replicate 50 2]⟩ ⟨10, 50, [List.replicate 50 3]⟩).sampleRate
      = 10 := rfl
  have hdur : (concatenateWithSilenceGaps ⟨10, 50, [List.replicate 50 1]⟩
      ⟨10, 50, [List.replicate 50 2]⟩ ⟨10, 50, [List.replicate 50 3]⟩).duration
      = 60 := by
    rw [AudioBuffer.duration, hnum, hsr]
    norm_num
  exact ⟨hdur, by rw [hdur]; norm_num⟩

/-- C3 amended: the concatenator's target duration is the hard-coded
60 seconds with a 1-second minimum floor: for three decoded 5-second
mono clips it computes `remainingTime = max(1, 60 - 15) = 45` seconds,
places two equal 22.5-second gaps before and after the middle clip,
and outputs `15 + 2 * 22.5 = 60` seconds (600 samples at 10 Hz), the
clips copied unchanged around the gaps. -/
theorem concat_amended (c1 c2 c3 : List ℚ) (h1 : c1.length = 50)
    (h2 : c2.length = 50) (h3 : c3.length = 50) :
    concatenateWithSilenceGaps ⟨10, 50, [c1]⟩ ⟨10, 50, [c2]⟩ ⟨10, 50, [c3]⟩ =
      ⟨10, 600, [c1 ++ List.replicate 225 0 ++ c2 ++ List.replicate 225 0 ++ c3]⟩ := by
  simp only [concatenateWithSilenceGaps, AudioBuffer.duration, chanData]
  norm_num [max_def]
  refine ⟨rfl, ?_⟩
  rw [show Int.toNat 600 = 600 from rfl, show Int.toNat 225 = 225 from rfl]
  rw [writeAt_replicate 600 0 c1 (by rw [h1]; omega)]
  rw [show List.replicate 0 (0:ℚ) ++ c1 ++ List.replicate (600 - 0 - c1.length) 0 =
    c1 ++ List.replicate 550 0 by
      rw [h1, List.replicate_zero, List.nil_append]]
  rw [show (50:ℕ) + 225 = c1.length + 225 by rw [h1]]
  rw [writeAt_append_replicate c1 c2 225 550 (by rw [h2]; omega)]
  rw [show (550 : ℕ) - 225 - c2.length = 275 by rw [h2]]
  rw [show c1.length + 225 + 50 + 225 =
    (c1 ++ List.replicate 225 0 ++ c2).length + 225 by
      simp only [List.length_append, List.length_replicate, h1, h2]]
  rw [writeAt_append_replicate _ c3 225 275 (by rw [h3])]
  rw [show (275 : ℕ) - 225 - c3.length = 0 by rw [h3]]
  rw [List.replicate_zero, List.append_nil]
  simp only [List.append_assoc]

/-- C3 amended witness: the clip-length hypotheses discharged at three
concrete constant-valued 5-second mono clips. -/
theorem concat_amended_witness :
    ((List.replicate 50 (1:ℚ)).length = 50 ∧
      (List.replicate 50 (2:ℚ)).length = 50 ∧
      (List.replicate 50 (3:ℚ)).length = 50) ∧
    concatenateWithSilenceGaps ⟨10, 50, [List.replicate 50 1]⟩
        ⟨10, 50, [List.replicate 50 2]⟩ ⟨10, 50, [List.replicate 50 3]⟩ =
      ⟨10, 600, [List.replicate 50 1 ++ List.replicate 225 0 ++
        List.replicate 50 2 ++ List.replicate 225 0 ++ List.replicate 50 3]⟩ :=
  ⟨⟨by simp, by simp, by simp⟩,
    concat_amended _ _ _ (by simp) (by simp) (by simp)⟩

/-! ## Word-alignment normalizer lemmas -/

/-- Elements of a trimmed character list come from the original list. -/
lemma mem_of_mem_trimChars {c : Char} {l : List Char} (h : c ∈ trimChars l) :
    c ∈ l := by
  unfold trimChars at h
  rw [List.mem_reverse] at h
  have h2 := (List.dropWhile_sublist _).subset h
  rw [List.mem_reverse] at h2
  exact (List.dropWhile_sublist _).subset h2

/-- `pushWord` preserves the word-list invariant: every emitted entry
is non-empty, whitespace-free, does not start with `<`, and does not
contain `break`. -/
lemma pushWord_invariant (st : CawState)
    (hw : ∀ w ∈ st.words, w.word.data ≠ [] ∧
      (∀ c ∈ w.word.data, c.isWhitespace = false) ∧
      w.word.data.head? ≠ some '<' ∧
      hasSubstr "break".data w.word.data = false)
    (hcw : ∀ c ∈ st.currentWord, c.isWhitespace = false) :
    ∀ w ∈ (pushWord st).words, w.word.data ≠ [] ∧
      (∀ c ∈ w.word.data, c.isWhitespace = false) ∧
      w.word.data.head? ≠ some '<' ∧
      hasSubstr "break".data w.word.data = false := by
  unfold pushWord
  by_cases hempty : (trimChars st.currentWord).isEmpty
  · rw [if_pos hempty]
    exact hw
  · rw [if_neg hempty]
    by_cases htag : ((trimChars st.currentWord).head? = some '<' ||
        hasSubstr "break".data (trimChars st.currentWord)) = true
    · rw [if_pos htag]
      exact hw
    · rw [if_neg htag]
      intro w hwmem
      simp only [List.mem_append, List.mem_singleton] at hwmem
      rcases hwmem with h | rfl
      · exact hw w h
      · simp only [Bool.or_eq_true, decide_eq_true_eq, not_or] at htag
        refine ⟨?_, ?_, htag.1, ?_⟩
        · intro hnil
          rw [← List.isEmpty_iff] at hnil
          exact hempty hnil
        · intro c hc
          exact hcw c (mem_of_mem_trimChars hc)
        · exact Bool.eq_false_iff.mpr htag.2

/-- The character-scan fold preserves the word-list invariant. -/
lemma caw_foldl_invariant (l : List (Char × ℚ × ℚ)) (st : CawState)
    (hw : ∀ w ∈ st.words, w.word.data ≠ [] ∧
      (∀ c ∈ w.word.data, c.isWhitespace = false) ∧
      w.word.data.head? ≠ some '<' ∧
      hasSubstr "break".data w.word.data = false)
    (hcw : ∀ c ∈ st.currentWord, c.isWhitespace = false) :
    ∀ w ∈ (pushWord (l.foldl (fun st t => cawStep st t.1 t.2.1 t.2.2) st)).words,
      w.word.data ≠ [] ∧
      (∀ c ∈ w.word.data, c.isWhitespace = false) ∧
      w.word.data.head? ≠ some '<' ∧
      hasSubstr "break".data w.word.data = false := by
  induction l generalizing st with
  | nil => exact pushWord_invariant st hw hcw
  | cons t rest ih =>
    rw [List.foldl_cons]
    by_cases hws : t.1.isWhitespace
    · refine ih (cawStep st t.1 t.2.1 t.2.2) ?_ ?_
      · rw [cawStep, if_pos hws]
        exact pushWord_invariant st hw hcw
      · rw [cawStep, if_pos hws]
        intro c hc
        simp only [pushWord] at hc
        split at hc <;> simp at hc
        rotate_left
        split at hc <;> simp at hc
    · refine ih (cawStep st t.1 t.2.1 t.2.2) ?_ ?_
      · rw [cawStep, if_neg hws]
        exact hw
      · rw [cawStep, if_neg hws]
        intro c hc
        simp only [List.mem_append, List.mem_singleton] at hc
        rcases hc with h | rfl
        · exact hcw c h
        · exact Bool.eq_false_iff.mpr hws

/-- C10: every entry emitted by `characterAlignmentToWords` has a
non-empty, whitespace-free word that neither starts with `<` nor
contains the substring `break` — so spoken words such as `breakfast`
are discarded — and, as the concrete run shows, each entry's start
time comes from its first character and its end time from its last
character. -/
theorem characterAlignmentToWords_spec :
    (∀ (chars : List Char) (sts ets : List ℚ) (w : WordAlignment),
      w ∈ characterAlignmentToWords chars sts ets →
        w.word.data ≠ [] ∧ (∀ c ∈ w.word.data, c.isWhitespace = false) ∧
        w.word.data.head? ≠ some '<' ∧
        hasSubstr "break".data w.word.data = false) ∧
    characterAlignmentToWords "go breakfast now".data
      [0, 1, 2, 3, 4, 5, 6, 7, 8, 9, 10, 11, 12, 13, 14, 15]
      [1, 2, 3, 4, 5, 6, 7, 8, 9, 10, 11, 12, 13, 14, 15, 16] =
      [⟨"go", 0, 2⟩, ⟨"now", 13, 16⟩] := by
  constructor
  · intro chars sts ets w hwmem
    exact caw_foldl_invariant (chars.zip (sts.zip ets)) ⟨[], [], 0, 0⟩
      (by intro w h; simp at h) (by intro c h; simp at h) w hwmem
  · rfl

/-- C10 witness: the membership hypothesis discharged at the entry
`go` of the concrete run (`go breakfast now`), whose `breakfast` is
dropped. -/
theorem characterAlignmentToWords_spec_witness :
    (⟨"go", 0, 2⟩ : WordAlignment) ∈ characterAlignmentToWords
      "go breakfast now".data
      [0, 1, 2, 3, 4, 5, 6, 7, 8, 9, 10, 11, 12, 13, 14, 15]
      [1, 2, 3, 4, 5, 6, 7, 8, 9, 10, 11, 12, 13, 14, 15, 16] ∧
    ((⟨"go", 0, 2⟩ : WordAlignment).word.data ≠ [] ∧
      (∀ c ∈ (⟨"go", 0, 2⟩ : WordAlignment).word.data, c.isWhitespace = false) ∧
      (⟨"go", 0, 2⟩ : WordAlignment).word.data.head? ≠ some '<' ∧
      hasSubstr "break".data (⟨"go", 0, 2⟩ : WordAlignment).word.data = false) := by
  have hmem : (⟨"go", 0, 2⟩ : WordAlignment) ∈ characterAlignmentToWords
      "go breakfast now".data
      [0, 1, 2, 3, 4, 5, 6, 7, 8, 9, 10, 11, 12, 13, 14, 15]
      [1, 2, 3, 4, 5, 6, 7, 8, 9, 10, 11, 12, 13, 14, 15, 16] := by
    rw [characterAlignmentToWords_spec.2]
    exact List.mem_cons_self _ _
  exact ⟨hmem, characterAlignmentToWords_spec.1 _ _ _ _ hmem⟩

end Mediapp
